import Mathlib

/-!
# Verification of the GpuHashJoin core (pg_strom)

A shallow embedding, in Lean 4, of the hash-join execution pipeline of the
pg_strom repository: the multihash-table builder (`multihash_preload_khashtable`,
`expand_multihash_tables`, `multihash_exec_multi`), the pseudo-scan column
resolver (`build_pseudo_scan_vartrans` / `build_pscan_varlist_walker`), the
OpenCL session driver (`clserv_process_gpuhashjoin` / `clserv_respond_hashjoin`)
and the execution node (`pgstrom_fetch_gpuhashjoin`, `gpuhashjoin_load_next_chunk`,
`gpuhashjoin_rescan`).  Machine integers are modelled as `Nat` (all the values
involved are unsigned and stay far below their C bounds on the inputs we
consider; where 32-bit wrap matters, the CRC primitives keep every intermediate
value below 2^32 by construction).  Fallible C paths (`elog(ERROR)`) are
modelled with `Except`.
-/

namespace PgStrom

/-! ## CRC32 (PostgreSQL pg_crc32)

`multihash_preload_khashtable` hashes each inner row with the macros
`INIT_CRC32` / `COMP_CRC32` / `FIN_CRC32`, the classic table-driven reflected
CRC-32 (polynomial 0xEDB88320); the very same `pg_crc32_table` is copied into
the hash buffer header by `multihash_exec_multi`.  One table entry is eight
shift/xor steps applied to the byte index; `COMP_CRC32` consumes one byte at a
time via `crc = table[(crc ^ byte) & 0xFF] ^ (crc >> 8)`.
-/

/-- One step of the CRC-32 table generator: shift right, conditionally xor the
reflected polynomial. All values stay below 2^32. -/
def crc32_step (n : Nat) : Nat :=
  if n % 2 = 1 then Nat.xor (n / 2) 0xEDB88320 else n / 2

/-- Entry `b` of `pg_crc32_table`: eight generator steps applied to the byte. -/
def pg_crc32_table (b : Nat) : Nat :=
  crc32_step (crc32_step (crc32_step (crc32_step
    (crc32_step (crc32_step (crc32_step (crc32_step b)))))))

/-- `COMP_CRC32` on a single byte:
`crc = pg_crc32_table[(crc ^ byte) & 0xFF] ^ (crc >> 8)`. -/
def comp_crc32_byte (crc b : Nat) : Nat :=
  Nat.xor (pg_crc32_table (Nat.xor crc b % 256)) (crc / 256)

/-- `COMP_CRC32` over a byte sequence (the macro iterates `comp_crc32_byte`). -/
def COMP_CRC32 (crc : Nat) (bytes : List Nat) : Nat :=
  bytes.foldl comp_crc32_byte crc

/-- `INIT_CRC32`: the accumulator starts at all-ones. -/
def INIT_CRC32 : Nat := 0xFFFFFFFF

/-- `FIN_CRC32`: final complement. -/
def FIN_CRC32 (crc : Nat) : Nat := Nat.xor crc 0xFFFFFFFF

/-! ## Hash-key evaluation (source loop of `multihash_preload_khashtable`)

For every row the builder walks `(hash_keys, hash_keylen, hash_keybyval)` in
lockstep; each evaluated key expression yields a Datum plus a null flag.  A
Datum is a machine word; for by-reference types it points to memory.  We model
one evaluated key as the record below: `valueBytes` are the bytes of the Datum
word itself (what `COMP_CRC32(hash, &value, keylen)` reads), `derefBytes` the
bytes at `DatumGetPointer(value)` (for a varlena value this is the whole datum,
header included), and `varHeadLen` the header length that `VARDATA_ANY` skips
(`VARSIZE_ANY_EXHDR` is the total size minus that header). -/
structure KeyVal where
  isnull : Bool
  keylen : Int
  keybyval : Bool
  valueBytes : List Nat
  derefBytes : List Nat
  varHeadLen : Nat
  deriving Repr, DecidableEq

/-- One iteration of the CRC accumulation loop (source lines 3741-3766):
a null key is skipped (`continue`); a fixed-length by-value key feeds
`keylen` bytes at `&value`; a fixed-length by-reference key feeds `keylen`
bytes at `DatumGetPointer(value)`; a variable-length key feeds
`VARDATA_ANY` / `VARSIZE_ANY_EXHDR` (payload only, header excluded). -/
def hashKeyStep (crc : Nat) (k : KeyVal) : Nat :=
  if k.isnull then crc
  else if 0 < k.keylen then
    if k.keybyval then COMP_CRC32 crc (k.valueBytes.take k.keylen.toNat)
    else COMP_CRC32 crc (k.derefBytes.take k.keylen.toNat)
  else COMP_CRC32 crc (k.derefBytes.drop k.varHeadLen)

/-- The complete per-row hash of `multihash_preload_khashtable`:
`INIT_CRC32`, the key loop, `FIN_CRC32`. -/
def rowHash (keys : List KeyVal) : Nat :=
  FIN_CRC32 (keys.foldl hashKeyStep INIT_CRC32)

/-- Byte contribution of one key field, as the specification words it:
a null key contributes nothing, a fixed-length by-value key its first
`keylen` value bytes, a fixed-length by-reference key `keylen` bytes at the
datum pointer, a variable-length key its payload bytes only. -/
def keyContribBytes (k : KeyVal) : List Nat :=
  if k.isnull then []
  else if 0 < k.keylen then
    if k.keybyval then k.valueBytes.take k.keylen.toNat
    else k.derefBytes.take k.keylen.toNat
  else k.derefBytes.drop k.varHeadLen

/-- Flattened contribution of a key list. -/
def keysContribBytes (keys : List KeyVal) : List Nat :=
  (keys.map keyContribBytes).flatten

/-! ## Hash-table insertion (`multihash_preload_khashtable`, lines 3770-3784)

A `kern_hashentry` starts with four `cl_uint` fields (`hash`, `next`, `rowid`,
`t_len`), so its `htup` payload begins at byte 16; entries are `LONGALIGN`ed
(8-byte alignment).  The slot array holds `cl_uint` values that are offsets
relative to the `kern_hashtable` start (0 = empty chain): the source stores
`hash_slots[i] = (cl_uint) consumed`, never a pointer. -/

/-- `LONGALIGN`: round up to a multiple of 8. -/
def LONGALIGN (a : Nat) : Nat := ((a + 7) / 8) * 8

/-- Byte offset of the `htup` payload inside `kern_hashentry`
(four leading `cl_uint` fields). -/
def kern_hashentry_htup_offset : Nat := 16

/-- One inserted hash entry (header fields; the copied tuple payload is kept
abstract, only its length `t_len` matters for layout). -/
structure KernHashEntry where
  hash : Nat
  next : Nat
  rowid : Nat
  t_len : Nat
  deriving Repr, DecidableEq

/-- The in-progress `kern_hashtable` of the current depth: slot array, the
entries already appended (offset-keyed), the consumption watermark `consumed`
(offset of the next free byte relative to the table start) and the tuple
counter. -/
structure KHashBuild where
  nslots : Nat
  hash_slots : List Nat
  entries : List (Nat × KernHashEntry)
  consumed : Nat
  ntuples : Nat
  deriving Repr, DecidableEq

/-- The insertion step of the row loop: the entry is placed at offset
`consumed`, its `next` receives the previous head of `bucket[hash % nslots]`,
the slot receives the new entry's table-relative offset, then `consumed` and
`ntuples` advance. -/
def khash_insert (s : KHashBuild) (hash t_len : Nat) : KHashBuild :=
  let entry_size := LONGALIGN (kern_hashentry_htup_offset + t_len)
  let i := hash % s.nslots
  let hentry : KernHashEntry :=
    { hash := hash, next := s.hash_slots.getD i 0,
      rowid := s.ntuples, t_len := t_len }
  { s with
    entries := s.entries ++ [(s.consumed, hentry)]
    hash_slots := s.hash_slots.set i s.consumed
    consumed := s.consumed + entry_size
    ntuples := s.ntuples + 1 }

/-- Look up the entry stored at a given table-relative offset. -/
def findEntry (entries : List (Nat × KernHashEntry)) (ofs : Nat) :
    Option KernHashEntry :=
  (entries.find? (fun e => e.fst = ofs)).map Prod.snd

/-- Walk a bucket chain by following `next` offsets (0 terminates, as does a
dangling offset); fuel bounds the walk. -/
def chainWalk (entries : List (Nat × KernHashEntry)) :
    Nat → Nat → List Nat
  | 0, _ => []
  | fuel + 1, ofs =>
      if ofs = 0 then []
      else
        match findEntry entries ofs with
        | none => []
        | some e => ofs :: chainWalk entries fuel e.next

/-- Offsets of the entries in bucket `i`, head first. -/
def bucketChain (s : KHashBuild) (i : Nat) : List Nat :=
  chainWalk s.entries s.entries.length (s.hash_slots.getD i 0)

/-- Build-state well-formedness maintained by the preload loop: the watermark
is positive (the table header and slot array precede the entries), every
stored entry sits strictly below the watermark, and every slot head and every
chain link points strictly below the watermark. -/
structure KHashWF (s : KHashBuild) : Prop where
  consumed_pos : 0 < s.consumed
  entries_lt : ∀ p ∈ s.entries, p.fst < s.consumed
  next_lt : ∀ p ∈ s.entries, p.snd.next < s.consumed
  slots_lt : ∀ v ∈ s.hash_slots, v < s.consumed


/-! ## Multihash-tables buffer growth and the preload loop
(`expand_multihash_tables` lines 3552-3592,
`multihash_preload_khashtable` lines 3695-3796,
`multihash_exec_multi` lines 3798-3891)

`pgstrom_multihash_tables` carries the buffer capacity (`length`), the used
watermark (`usage`), the per-depth offsets, the tuple count and the
`is_divided` flag.  `expand_multihash_tables` asks
`pgstrom_shmem_alloc_alap(2 * length_old)` for a doubled buffer, copies the
used contents, and fails softly (returns false) when shared memory is
exhausted; we model the allocator as an oracle list of `Option Nat` results
(the usable `length` of each successive reallocation, already net of the
struct header, with allocations consumed in order).  The source compares
`required > threshold_ratio * length` with `threshold_ratio` a C double; the
comparison is abstracted as a Boolean predicate `thr required length` so no
floating-point arithmetic needs to be modelled. -/

/-- The header fields of `pgstrom_multihash_tables` the builder updates. -/
structure MHTablesB where
  length : Nat
  usage : Nat
  ntuples : Nat
  is_divided : Bool
  deriving Repr, DecidableEq

/-- One inner row as the preload loop sees it: the evaluated key expressions
and the tuple length `scan_tuple->t_len`. -/
structure InnerRow where
  keys : List KeyVal
  t_len : Nat
  deriving Repr, DecidableEq

/-- The `while (required > threshold_ratio * length)` expansion loop wrapped
around `expand_multihash_tables`: grow by consuming the allocator oracle
until the requirement fits; report failure (third component `false`) when an
allocation fails, keeping whatever growth already succeeded. -/
def grow_until (thr : Nat → Nat → Bool) (required : Nat) :
    List (Option Nat) → MHTablesB → MHTablesB × List (Option Nat) × Bool
  | allocs, mht =>
    if thr required mht.length then
      match allocs with
      | [] => (mht, [], false)
      | none :: rest => (mht, rest, false)
      | some a :: rest => grow_until thr required rest { mht with length := a }
    else (mht, allocs, true)

/-- A fresh `kern_hashtable` skeleton: the slot array is zero-filled
(`memset(hash_slots, 0, ...)`) and `consumed` starts at the `LONGALIGN`ed end
of the slot array (`consumed0`, a layout constant of the header whose exact
value comes from `offsetof(kern_hashtable, colmeta[ncols])`). -/
def khash_init (nslots consumed0 : Nat) : KHashBuild :=
  { nslots := nslots, hash_slots := List.replicate nslots 0,
    entries := [], consumed := consumed0, ntuples := 0 }

/-- Outcome of the row loop of `multihash_preload_khashtable`. -/
structure PreloadRes where
  mht : MHTablesB
  kh : KHashBuild
  allocs : List (Option Nat)
  outer_done : Bool
  outer_overflow : Option InnerRow
  deriving Repr, DecidableEq

/-- The row loop (source lines 3697-3784): take the stashed overflow row
first, else pull from the outer stream (modelled as the merged list `rows`);
on stream end set `outer_done`; before each insertion run the expansion loop,
and if expansion fails stash the unconsumed row in `outer_overflow` and leave
the loop WITHOUT raising an error; otherwise hash the key fields and insert
the entry. -/
def preload_rows (thr : Nat → Nat → Bool) :
    List InnerRow → List (Option Nat) → MHTablesB → KHashBuild → PreloadRes
  | [], allocs, mht, kh =>
      { mht := mht, kh := kh, allocs := allocs,
        outer_done := true, outer_overflow := none }
  | r :: rest, allocs, mht, kh =>
      -- entry_size = LONGALIGN(offsetof(kern_hashentry, htup) + t_len);
      -- required = usage + consumed + entry_size
      match grow_until thr
        (mht.usage + kh.consumed +
          LONGALIGN (kern_hashentry_htup_offset + r.t_len)) allocs mht with
      | (mht2, allocs2, false) =>
          { mht := mht2, kh := kh, allocs := allocs2,
            outer_done := false, outer_overflow := some r }
      | (mht2, allocs2, true) =>
          preload_rows thr rest allocs2 mht2
            (khash_insert kh (rowHash r.keys) r.t_len)

/-- Outcome of one `multihash_preload_khashtable` call in the scan-forward
case. -/
structure PreloadOut where
  mht : MHTablesB
  curr_chunk : Option KHashBuild
  outer_done : Bool
  outer_overflow : Option InnerRow
  allocs : List (Option Nat)
  deriving Repr, DecidableEq

/-- `multihash_preload_khashtable` with `scan_forward = true`: ensure room
for the table header and slot array (here an expansion failure IS an error,
`elog(ERROR, "No multi-hashtables expandable any more")`), run the row loop,
then the epilogue: account the consumed bytes and tuples, set `is_divided`
when a previous chunk exists or the outer scan is unfinished, and keep a
copy of the just-built single-depth table in `curr_chunk`
(`mhs->curr_chunk = pmemcpy(khtable, khtable->length)`).
`preload_epilogue` is the post-loop bookkeeping shared with the statement of
the theorems; `multihash_preload_khashtable_fwd` is the whole call. -/
def preload_epilogue (prev_chunk : Option KHashBuild) (r : PreloadRes) :
    PreloadOut :=
  { mht :=
      { r.mht with
        ntuples := r.mht.ntuples + r.kh.ntuples
        usage := r.mht.usage + r.kh.consumed
        is_divided := r.mht.is_divided ||
          (prev_chunk.isSome || !r.outer_done) }
    curr_chunk := some r.kh
    outer_done := r.outer_done
    outer_overflow := r.outer_overflow
    allocs := r.allocs }

def multihash_preload_khashtable_fwd (thr : Nat → Nat → Bool)
    (nslots consumed0 headerReq : Nat) (prev_chunk : Option KHashBuild)
    (rows : List InnerRow) (allocs : List (Option Nat)) (mht : MHTablesB) :
    Except String PreloadOut :=
  match grow_until thr (mht.usage + headerReq) allocs mht with
  | (_, _, false) => Except.error "No multi-hashtables expandable any more"
  | (mht1, allocs1, true) =>
      Except.ok (preload_epilogue prev_chunk
        (preload_rows thr rows allocs1 mht1 (khash_init nslots consumed0)))

/-- The deepest `multihash_exec_multi` invocation (no deeper MultiHash): when
the outer scan already ended it returns NULL (no more chunks); otherwise it
allocates a fresh buffer (`none` from the allocator is a hard
`elog(ERROR, "out of shared memory")`) and preloads scan-forward, consuming
the stashed overflow row before pulling new rows. -/
def multihash_exec_multi_leaf (thr : Nat → Nat → Bool)
    (nslots consumed0 headerReq : Nat) (outer_done : Bool)
    (overflow : Option InnerRow) (prev_chunk : Option KHashBuild)
    (rows : List InnerRow) (allocs : List (Option Nat))
    (fresh_mht : Option MHTablesB) : Except String (Option PreloadOut) :=
  if outer_done then Except.ok none
  else
    match fresh_mht with
    | none => Except.error "out of shared memory"
    | some mht =>
        (multihash_preload_khashtable_fwd thr nslots consumed0 headerReq
          prev_chunk (overflow.toList ++ rows) allocs mht).map some

/-- Head decision of `gpuhashjoin_load_next_chunk` (lines 2564-2604): when
the outer scan is done or no hash buffer is attached, load the next inner
multihash-table (`none` = end of scan, NULL return) and — precisely when the
outer scan had been exhausted — rewind the outer relation with `ExecReScan`.
Returns whether `ExecReScan(outerPlanState)` runs, or `none` at scan end. -/
def load_next_chunk_outer_rescan (outer_done mht_attached inner_avail :
    Bool) : Option Bool :=
  if outer_done || !mht_attached then
    if inner_avail then some outer_done else none
  else some false

/-! ## Pseudo-scan varlist construction (`build_pscan_varlist_walker` lines
1474-1504, `build_pseudo_scan_vartrans` lines 1506-1647)

The walker collects every distinct Var/PlaceHolderVar (deduplicated by
structural equality, modelled as a `Nat` identity) into three parallel lists
(`varlist`, `varrefs`, `resnums`), modelled here as one list of records kept
in lockstep.  A node already collected gets the current `refmode` OR-ed into
its reference mask (the walker stops at the first structural match; entries
are distinct, so at most one matches); a new node is appended with
`resnum = list_length + 1`.  `build_pseudo_scan_vartrans` runs the walker
first over the target list, quals and host clauses with `refmode = 0x0001`
(host-referenced), then over the hash and qual device clauses with
`refmode = 0x0002` (device-referenced); the later depth-matching loop copies
`resnum` into `vtrans->resno` unchanged and sets `ref_host` iff bit 0x0001
is present. -/

/-- One collected pseudo-scan column: the leaf identity, the reference
bitmask (0x1 host, 0x2 device) and the assigned output column number. -/
structure PscanEntry where
  var : Nat
  refs : Nat
  resnum : Nat
  deriving Repr, DecidableEq

/-- The dedup branch of the walker: OR `refmode` into the first entry whose
node equals `v`; `none` when no entry matches. -/
def pscan_update_first (v refmode : Nat) :
    List PscanEntry → Option (List PscanEntry)
  | [] => none
  | e :: rest =>
      if e.var = v then
        some ({ e with refs := e.refs ||| refmode } :: rest)
      else (pscan_update_first v refmode rest).map (fun l => e :: l)

/-- One Var visit of `build_pscan_varlist_walker`: update the matching entry
or append a fresh one numbered `list_length + 1`. -/
def pscan_walk_var (refmode : Nat) (ctx : List PscanEntry) (v : Nat) :
    List PscanEntry :=
  match pscan_update_first v refmode ctx with
  | some ctx2 => ctx2
  | none => ctx ++ [{ var := v, refs := refmode, resnum := ctx.length + 1 }]

/-- One expression walk: visit the leaves in order under one `refmode`. -/
def build_pscan_varlist_phase (refmode : Nat) (ctx : List PscanEntry)
    (vs : List Nat) : List PscanEntry :=
  vs.foldl (pscan_walk_var refmode) ctx

/-- The collection order of `build_pseudo_scan_vartrans`: host-referenced
expressions (targetlist, qual, host_clauses) with `refmode = 0x0001` first,
then device-referenced expressions (hash_clauses, qual_clauses) with
`refmode = 0x0002`. -/
def build_pseudo_scan_varlist (hostVars deviceVars : List Nat) :
    List PscanEntry :=
  build_pscan_varlist_phase 2 (build_pscan_varlist_phase 1 [] hostVars)
    deviceVars

/-- `vtrans->ref_host` as set by `build_pseudo_scan_vartrans`:
`(refmode & 0x0001) != 0`. -/
def vtrans_ref_host (e : PscanEntry) : Bool := (e.refs &&& 1) != 0

/-- Pointwise relation between a varlist and its updated version: output
numbers unchanged, the mask unchanged or OR-ed with the phase mode. -/
def PscanR (m : Nat) (a b : PscanEntry) : Prop :=
  b.resnum = a.resnum ∧ b.var = a.var ∧
    (b.refs = a.refs ∨ b.refs = a.refs ||| m)

/-- Invariant after the host phase: every entry is host-only (mask 1) and
the output numbers are `1, 2, ..., n` in list order. -/
def Phase1Inv (l : List PscanEntry) : Prop :=
  (∀ e ∈ l, e.refs = 1) ∧
    l.map PscanEntry.resnum = List.range' 1 l.length

/-- Invariant during the device phase: the list splits into a prefix of
host-referenced entries (mask 1 or 3) and a suffix of device-only entries
(mask 2), with output numbers `1, 2, ..., n` in list order. -/
def Phase2Inv (l : List PscanEntry) : Prop :=
  ∃ l₁ l₂, l = l₁ ++ l₂ ∧
    (∀ e ∈ l₁, e.refs = 1 ∨ e.refs = 3) ∧
    (∀ e ∈ l₂, e.refs = 2) ∧
    l.map PscanEntry.resnum = List.range' 1 l.length

/-! ## Rescan of the execution node (`gpuhashjoin_rescan`, lines 3064-3126)

After draining in-flight sessions the node decides the fate of the current
multihash-tables buffer.  The source reads (lines 3095-3117):

    if (ghjs->mhtables)
    {
        if (mhtables->is_divided || inner_ps->chgParam == NULL)
        {
            if (inner_ps->chgParam == NULL)
                ExecReScan(inner_ps);
            ... untrack, multihash_put_tables, ghjs->mhtables = NULL;
        }
    }
    ...
    if (outerPlanState(ghjs)->chgParam == NULL)
        ExecReScan(outerPlanState(ghjs));

so the buffer is RELEASED exactly when `is_divided || chgParam == NULL`. -/

/-- Observable effects of `gpuhashjoin_rescan` on the hash buffer and the
subplans, as a function of whether a buffer is attached, its `is_divided`
flag, and whether the inner/outer `chgParam` sets are NULL. -/
structure RescanEffect where
  mhtables_released : Bool
  inner_rescanned : Bool
  outer_rescanned : Bool
  deriving Repr, DecidableEq

/-- Embedding of the decision logic of `gpuhashjoin_rescan`. -/
def gpuhashjoin_rescan_model (has_mht is_divided inner_chg_null
    outer_chg_null : Bool) : RescanEffect :=
  { mhtables_released := has_mht && (is_divided || inner_chg_null)
    inner_rescanned := has_mht && (is_divided || inner_chg_null) &&
      inner_chg_null
    outer_rescanned := outer_chg_null }

/-! ## OpenCL session driver (`clserv_process_gpuhashjoin`,
`clserv_respond_hashjoin`)

The driver submits one OpenCL command sequence per invocation; on a
destination-overflow completion the responder adjusts the result buffer and
re-enqueues the whole message, so the next invocation of
`clserv_process_gpuhashjoin` submits the full sequence again. -/

/-- Error codes of the message protocol.  The enum lives in a header outside
src/; only the distinctness of the values matters here. -/
def StromError_Success : Nat := 0

def StromError_DataStoreNoSpace : Nat := 100

def StromError_DataStoreCorruption : Nat := 101

def StromError_OutOfSharedMemory : Nat := 102

/-- Destination `kern_data_store` formats distinguished by the driver. -/
inductive KDSFormat
  | tupslot
  | row_flat
  | other
  deriving Repr, DecidableEq

/-- The device commands `clserv_process_gpuhashjoin` enqueues, in program
order (source lines 4476-5014). -/
inductive DevCmd
  | writeHashBuf
  | writeJoinBuf
  | writeRowMap
  | writeDataStore
  | writeDestHead
  | launchKernMain
  | launchKernProj
  | readStatus
  | readDest
  deriving Repr, DecidableEq

/-- The command sequence of one `clserv_process_gpuhashjoin` invocation:
the multihash-tables DMA write happens only when no kernel currently holds
the table on the device (`n_kernel == 0`); the rowmap write only when a
row-selection map is present; everything else is unconditional, and both the
join-matching kernel (`kern_gpuhashjoin_main`) and the projection kernel are
launched on every invocation. -/
def clserv_process_cmds (hash_resident has_rowmap : Bool) : List DevCmd :=
  (if hash_resident then [] else [DevCmd.writeHashBuf]) ++
  [DevCmd.writeJoinBuf] ++
  (if has_rowmap then [DevCmd.writeRowMap] else []) ++
  [DevCmd.writeDataStore, DevCmd.writeDestHead,
   DevCmd.launchKernMain, DevCmd.launchKernProj,
   DevCmd.readStatus, DevCmd.readDest]

/-- The `kern_resultbuf` header fields the driver manipulates. -/
structure KResultBuf where
  nrels : Nat
  nrooms : Nat
  nitems : Nat
  errcode : Nat
  deriving Repr, DecidableEq

/-- State of one `pgstrom_gpuhashjoin` message as seen by the responder:
result-buffer header, destination store format and reported row count, the
message error code (copied from `kresults->errcode` on completion), and
whether a row map accompanies the outer chunk. -/
structure GHJSession where
  kresults : KResultBuf
  dest_format : KDSFormat
  dest_nitems : Nat
  msg_errcode : Nat
  has_rowmap : Bool
  deriving Repr, DecidableEq

/-- What the responder does with a completed session. -/
inductive RespondAct
  | reply (errcode : Nat)
  | reenqueue (s : GHJSession)
  deriving Repr, DecidableEq

/-- Embedding of the retry logic of `clserv_respond_hashjoin` (lines
4305-4410): on `StromError_DataStoreNoSpace` the result buffer is resized to
exactly the reported row count (`kresults->nrooms = nitems`, counters and
error reset), a fresh destination store is allocated (failure of that
allocation replies `StromError_OutOfSharedMemory`; an unknown destination
format replies `StromError_DataStoreCorruption`) and the message is enqueued
again; any other completion is replied to the backend as is. -/
def clserv_respond_hashjoin_model (alloc_ok : Bool) (s : GHJSession) :
    RespondAct :=
  if s.msg_errcode = StromError_DataStoreNoSpace then
    match s.dest_format with
    | KDSFormat.other => RespondAct.reply StromError_DataStoreCorruption
    | _ =>
        if alloc_ok then
          RespondAct.reenqueue
            { s with
              kresults :=
                { s.kresults with
                  nrooms := s.dest_nitems
                  nitems := 0
                  errcode := StromError_Success }
              dest_nitems := 0 }
        else RespondAct.reply StromError_OutOfSharedMemory
  else RespondAct.reply s.msg_errcode

/-- The device commands submitted on behalf of a completed session: nothing
if the responder replies, the full pipeline of `clserv_process_gpuhashjoin`
if it re-enqueues. -/
def retry_cmds (alloc_ok hash_resident : Bool) (s : GHJSession) :
    List DevCmd :=
  match clserv_respond_hashjoin_model alloc_ok s with
  | RespondAct.reenqueue s2 => clserv_process_cmds hash_resident s2.has_rowmap
  | RespondAct.reply _ => []

/-- Modelled from the spec: the device kernels (`kern_gpuhashjoin_main` and
`kern_gpuhashjoin_projection_*`, in `opencl_hashjoin.h`, which is not under
src/) produce a deterministic match count for fixed session inputs; when that
count exceeds the result-buffer capacity `kresults->nrooms` the kernel reports
`StromError_DataStoreNoSpace` and the destination store still reports the
actual row count produced; otherwise the session completes successfully.  The
message error code is copied from `kresults->errcode` on completion (source
lines 4123-4125). -/
def device_run_model (matchCount : Nat) (s : GHJSession) : GHJSession :=
  if s.kresults.nrooms < matchCount then
    { s with
      kresults := { s.kresults with errcode := StromError_DataStoreNoSpace }
      dest_nitems := matchCount
      msg_errcode := StromError_DataStoreNoSpace }
  else
    { s with
      kresults :=
        { s.kresults with nitems := matchCount
                          errcode := StromError_Success }
      dest_nitems := matchCount
      msg_errcode := StromError_Success }

/-- One process-complete-respond cycle of a session. -/
def session_advance (alloc_ok : Bool) (matchCount : Nat) (s : GHJSession) :
    RespondAct :=
  clserv_respond_hashjoin_model alloc_ok (device_run_model matchCount s)

/-- Repeated cycles until the responder replies; returns the number of
re-enqueues and the final error code, or `none` when the fuel runs out
before a reply. -/
def session_drive (alloc_ok : Bool) (matchCount : Nat) :
    Nat → GHJSession → Option (Nat × Nat)
  | 0, _ => none
  | fuel + 1, s =>
      match session_advance alloc_ok matchCount s with
      | RespondAct.reply e => some (0, e)
      | RespondAct.reenqueue s2 =>
          (session_drive alloc_ok matchCount fuel s2).map
            (fun r => (r.1 + 1, r.2))

/-! ## Shared hash-buffer device residency (`clserv_process_gpuhashjoin`
lines 4477-4539, `clserv_respond_hashjoin` lines 4292-4302)

All accesses run under `mhtables->lock`, so concurrent sessions interleave as
a sequence of atomic acquire / release operations on this small state. -/

/-- The lock-protected residency fields of `pgstrom_multihash_tables`. -/
structure MHTDevState where
  n_kernel : Nat
  m_hash : Option Nat
  ev_hash : Option Nat
  deriving Repr, DecidableEq

/-- What one session observes when it acquires the hash table: the device
buffer, the DMA-completion event it must wait on, and whether it was the
loader (the one that performed the transfer). -/
structure HashAcqObs where
  mem : Nat
  ev : Nat
  loader : Bool
  deriving Repr, DecidableEq

/-- Acquisition step under the spinlock: the session finding `n_kernel == 0`
allocates the device buffer (`fresh_mem`), enqueues the DMA write whose
completion event is `fresh_ev`, and publishes both; any other session retains
the published buffer and event.  Either way `n_kernel` is incremented. -/
def acquire_hash (fresh_mem fresh_ev : Nat) (s : MHTDevState) :
    MHTDevState × HashAcqObs :=
  if s.n_kernel = 0 then
    ({ n_kernel := 1, m_hash := some fresh_mem, ev_hash := some fresh_ev },
     { mem := fresh_mem, ev := fresh_ev, loader := true })
  else
    ({ s with n_kernel := s.n_kernel + 1 },
     { mem := s.m_hash.getD 0, ev := s.ev_hash.getD 0, loader := false })

/-- Release step under the spinlock (responder epilogue): drop one reference;
when the last reference goes, unpublish the buffer and event. -/
def release_hash (s : MHTDevState) : MHTDevState :=
  if s.n_kernel - 1 = 0 then
    { n_kernel := 0, m_hash := none, ev_hash := none }
  else { s with n_kernel := s.n_kernel - 1 }

/-- A burst of concurrent sessions acquiring the table one after another
(the spinlock serialises them); each element supplies the fresh buffer/event
ids that session would create if it were the loader. -/
def acquire_seq : List (Nat × Nat) → MHTDevState →
    MHTDevState × List HashAcqObs
  | [], s => (s, [])
  | f :: fs, s =>
      let r := acquire_hash f.1 f.2 s
      let rest := acquire_seq fs r.1
      (rest.1, r.2 :: rest.2)

/-! ## Execution-node admission control (`pgstrom_fetch_gpuhashjoin`,
lines 2752-2803)

The issue loop keeps loading outer chunks and enqueueing sessions while
`!outer_done && num_running <= pgstrom_max_async_chunks`, polling the response
queue without blocking after each enqueue; after the loop the node blocks on
the queue only when no completed session is on hand and some are running. -/

/-- Result of the issue loop: the in-flight counter, the high-water mark the
counter reached just after each enqueue, the number of completed sessions on
hand, the unconsumed poll oracle, and whether the outer scan ended. -/
structure FetchLoopRes where
  num_running : Nat
  peak : Nat
  ready : Nat
  polls_rest : List Bool
  outer_done : Bool
  deriving Repr, DecidableEq

/-- The issue loop.  `chunks` is the number of outer chunks the scan can
still deliver; `polls` answers the non-blocking `pgstrom_try_dequeue_message`
calls (`true` = a completed session was waiting).  Faithful to the source,
the guard is `num_running <= maxAsync`, the counter is incremented after a
successful enqueue, and a successful poll decrements it and leaves the loop. -/
def fetch_issue_loop (maxAsync : Nat) :
    Nat → List Bool → Nat → Nat → Nat → FetchLoopRes
  | chunks, polls, nr, peak, ready =>
    if maxAsync < nr then
      { num_running := nr, peak := peak, ready := ready,
        polls_rest := polls, outer_done := false }
    else
      match chunks with
      | 0 =>
          { num_running := nr, peak := peak, ready := ready,
            polls_rest := polls, outer_done := true }
      | c + 1 =>
          match polls with
          | true :: rest =>
              { num_running := nr, peak := Nat.max peak (nr + 1),
                ready := ready + 1, polls_rest := rest, outer_done := false }
          | false :: rest =>
              fetch_issue_loop maxAsync c rest (nr + 1)
                (Nat.max peak (nr + 1)) ready
          | [] =>
              fetch_issue_loop maxAsync c [] (nr + 1)
                (Nat.max peak (nr + 1)) ready

/-- Result of one `pgstrom_fetch_gpuhashjoin` call: the loop result after the
blocking phase, whether the call blocked on the response queue, and whether a
completed session is returned (`false` models the NULL return at end of
scan). -/
structure FetchRes where
  loop : FetchLoopRes
  blocked : Bool
  returned : Bool
  deriving Repr, DecidableEq

/-- The fetch entry point: run the issue loop, then block on the response
queue only when nothing is ready and something is running. -/
def pgstrom_fetch_model (maxAsync chunks : Nat) (polls : List Bool)
    (nr peak ready : Nat) : FetchRes :=
  let l := fetch_issue_loop maxAsync chunks polls nr peak ready
  if l.ready = 0 then
    if l.num_running = 0 then
      { loop := l, blocked := false, returned := false }
    else
      { loop := { l with num_running := l.num_running - 1,
                         ready := l.ready + 1 },
        blocked := true, returned := true }
  else { loop := l, blocked := false, returned := true }

/-! ## Supporting lemmas -/

theorem COMP_CRC32_append (crc : Nat) (a b : List Nat) :
    COMP_CRC32 crc (a ++ b) = COMP_CRC32 (COMP_CRC32 crc a) b :=
  List.foldl_append _ _ _ _

theorem hashKeyStep_eq_comp (crc : Nat) (k : KeyVal) :
    hashKeyStep crc k = COMP_CRC32 crc (keyContribBytes k) := by
  unfold hashKeyStep keyContribBytes
  by_cases h1 : k.isnull <;>
    simp only [h1, if_true, if_false, COMP_CRC32, Bool.false_eq_true,
      List.foldl_nil] <;>
  by_cases h2 : 0 < k.keylen <;> by_cases h3 : k.keybyval <;>
    simp [h2, h3]

theorem foldl_hashKeyStep_eq (crc : Nat) (keys : List KeyVal) :
    keys.foldl hashKeyStep crc = COMP_CRC32 crc (keysContribBytes keys) := by
  induction keys generalizing crc with
  | nil => simp [keysContribBytes, COMP_CRC32]
  | cons k rest ih =>
      simp only [List.foldl_cons, keysContribBytes, List.map_cons,
        List.flatten_cons, COMP_CRC32_append]
      rw [ih, hashKeyStep_eq_comp]
      rfl

theorem findEntry_append_frozen (old : List (Nat × KernHashEntry))
    (c : Nat) (e : KernHashEntry) (ofs : Nat) (h : ofs ≠ c) :
    findEntry (old ++ [(c, e)]) ofs = findEntry old ofs := by
  unfold findEntry
  rw [List.find?_append]
  cases hfind : old.find? (fun p => p.fst = ofs) with
  | some v => simp
  | none =>
      simp only [Option.none_or]
      rw [List.find?_singleton]
      simp [h.symm]

theorem chainWalk_append_frozen (old : List (Nat × KernHashEntry))
    (c : Nat) (e : KernHashEntry)
    (hnext : ∀ p ∈ old, p.snd.next < c) :
    ∀ fuel ofs, ofs < c →
      chainWalk (old ++ [(c, e)]) fuel ofs = chainWalk old fuel ofs := by
  intro fuel
  induction fuel with
  | zero => intro ofs _; rfl
  | succ n ih =>
      intro ofs hofs
      unfold chainWalk
      by_cases h0 : ofs = 0
      · simp [h0]
      · rw [findEntry_append_frozen old c e ofs (Nat.ne_of_lt hofs)]
        simp only [h0, if_false]
        cases hfind : findEntry old ofs with
        | none => simp
        | some e2 =>
            have he2 : e2.next < c := by
              unfold findEntry at hfind
              cases hf : old.find? (fun p => p.fst = ofs) with
              | none => rw [hf] at hfind; simp at hfind
              | some p =>
                  rw [hf] at hfind
                  simp only [Option.map_some', Option.some.injEq] at hfind
                  have hmem := List.mem_of_find?_eq_some hf
                  have := hnext p hmem
                  rw [hfind] at this
                  exact this
            simp only []
            rw [ih e2.next he2]

theorem getD_set_self (l : List Nat) (i v : Nat) (h : i < l.length) :
    (l.set i v).getD i 0 = v := by
  induction l generalizing i with
  | nil => simp at h
  | cons a rest ih =>
      cases i with
      | zero => rfl
      | succ j =>
          simp only [List.set_cons_succ, List.getD_cons_succ]
          exact ih j (by simpa using h)

theorem getD_mem_or_default (l : List Nat) (i : Nat) :
    l.getD i 0 ∈ l ∨ l.getD i 0 = 0 := by
  induction l generalizing i with
  | nil => simp
  | cons a rest ih =>
      cases i with
      | zero => simp
      | succ j =>
          simp only [List.getD_cons_succ]
          rcases ih j with h | h
          · exact Or.inl (List.mem_cons_of_mem a h)
          · exact Or.inr h

theorem chainWalk_succ (entries : List (Nat × KernHashEntry))
    (fuel ofs : Nat) :
    chainWalk entries (fuel + 1) ofs =
      (if ofs = 0 then []
       else
         match findEntry entries ofs with
         | none => []
         | some e => ofs :: chainWalk entries fuel e.next) := rfl

theorem findEntry_append_last (old : List (Nat × KernHashEntry))
    (c : Nat) (e : KernHashEntry) (hfresh : ∀ p ∈ old, p.fst ≠ c) :
    findEntry (old ++ [(c, e)]) c = some e := by
  unfold findEntry
  rw [List.find?_append]
  have : old.find? (fun p => p.fst = c) = none := by
    rw [List.find?_eq_none]
    intro p hp
    simp [hfresh p hp]
  rw [this]
  simp [List.find?_singleton]

/-- Head insertion: after `khash_insert`, the bucket of the new entry chains
the fresh offset in front of the previous chain. -/
theorem bucketChain_insert (s : KHashBuild) (h t : Nat)
    (wf : KHashWF s) (hlen : s.hash_slots.length = s.nslots)
    (hpos : 0 < s.nslots) :
    bucketChain (khash_insert s h t) (h % s.nslots) =
      s.consumed :: bucketChain s (h % s.nslots) := by
  have hi : h % s.nslots < s.hash_slots.length := by
    rw [hlen]; exact Nat.mod_lt _ hpos
  have hfresh : ∀ p ∈ s.entries, p.fst ≠ s.consumed := by
    intro p hp
    exact Nat.ne_of_lt (wf.entries_lt p hp)
  have hhead_lt : s.hash_slots.getD (h % s.nslots) 0 < s.consumed := by
    rcases getD_mem_or_default s.hash_slots (h % s.nslots) with hm | hz
    · exact wf.slots_lt _ hm
    · rw [hz]; exact wf.consumed_pos
  unfold bucketChain khash_insert
  simp only [List.length_append, List.length_cons, List.length_nil]
  rw [getD_set_self _ _ _ hi]
  have hc0 : ¬ s.consumed = 0 := Nat.pos_iff_ne_zero.mp wf.consumed_pos
  rw [chainWalk_succ]
  simp only [hc0, if_false]
  rw [findEntry_append_last s.entries s.consumed _ hfresh]
  simp only []
  rw [chainWalk_append_frozen s.entries s.consumed _ wf.next_lt
    s.entries.length _ hhead_lt]

theorem crc32_step_lt (n : Nat) (h : n < 2 ^ 32) : crc32_step n < 2 ^ 32 := by
  unfold crc32_step
  have h2 : n / 2 < 2 ^ 32 := lt_of_le_of_lt (Nat.div_le_self n 2) h
  by_cases hp : n % 2 = 1
  · simp only [hp, if_true]
    exact Nat.xor_lt_two_pow h2 (by norm_num)
  · simpa [hp] using h2

theorem pg_crc32_table_lt (b : Nat) (h : b < 2 ^ 32) :
    pg_crc32_table b < 2 ^ 32 := by
  unfold pg_crc32_table
  exact crc32_step_lt _ (crc32_step_lt _ (crc32_step_lt _ (crc32_step_lt _
    (crc32_step_lt _ (crc32_step_lt _ (crc32_step_lt _ (crc32_step_lt _ h)))))))

theorem comp_crc32_byte_lt (crc b : Nat) (h : crc < 2 ^ 32) :
    comp_crc32_byte crc b < 2 ^ 32 := by
  unfold comp_crc32_byte
  have h1 : Nat.xor crc b % 256 < 2 ^ 32 :=
    lt_of_lt_of_le (Nat.mod_lt _ (by norm_num)) (by norm_num)
  have h2 : crc / 256 < 2 ^ 32 := lt_of_le_of_lt (Nat.div_le_self _ _) h
  exact Nat.xor_lt_two_pow (pg_crc32_table_lt _ h1) h2

theorem COMP_CRC32_lt (crc : Nat) (bytes : List Nat) (h : crc < 2 ^ 32) :
    COMP_CRC32 crc bytes < 2 ^ 32 := by
  induction bytes generalizing crc with
  | nil => exact h
  | cons b rest ih =>
      exact ih (comp_crc32_byte crc b) (comp_crc32_byte_lt crc b h)

theorem rowHash_lt (keys : List KeyVal) : rowHash keys < 2 ^ 32 := by
  unfold rowHash FIN_CRC32
  rw [foldl_hashKeyStep_eq]
  exact Nat.xor_lt_two_pow
    (COMP_CRC32_lt _ _ (by norm_num [INIT_CRC32])) (by norm_num)

theorem acquire_seq_loaded (fs : List (Nat × Nat)) (m e : Nat) :
    ∀ k, k ≠ 0 →
      acquire_seq fs ⟨k, some m, some e⟩ =
        (⟨k + fs.length, some m, some e⟩,
         fs.map (fun _ => ⟨m, e, false⟩)) := by
  induction fs with
  | nil => intro k hk; simp [acquire_seq]
  | cons f rest ih =>
      intro k hk
      simp only [acquire_seq, acquire_hash, List.map_cons, List.length_cons]
      rw [if_neg hk]
      simp only [Option.getD_some]
      rw [ih (k + 1) (by omega)]
      refine Prod.ext ?_ rfl
      simp only []
      congr 1
      omega

theorem filter_loader_map_const (fs : List (Nat × Nat)) (m e : Nat) :
    List.filter (fun o => o.loader)
      (fs.map (fun _ => ({ mem := m, ev := e, loader := false } : HashAcqObs)))
      = [] := by
  induction fs with
  | nil => rfl
  | cons f rest ih => simpa using ih

theorem clserv_respond_noSpace (s : GHJSession)
    (hov : s.msg_errcode = StromError_DataStoreNoSpace)
    (hfmt : s.dest_format ≠ KDSFormat.other) :
    clserv_respond_hashjoin_model true s =
      RespondAct.reenqueue
        { s with
          kresults :=
            { s.kresults with nrooms := s.dest_nitems, nitems := 0,
                              errcode := StromError_Success }
          dest_nitems := 0 } := by
  unfold clserv_respond_hashjoin_model
  rw [if_pos hov]
  cases hf : s.dest_format with
  | other => exact absurd hf hfmt
  | tupslot => rfl
  | row_flat => rfl

theorem clserv_respond_noSpace_allocFail (s : GHJSession)
    (hov : s.msg_errcode = StromError_DataStoreNoSpace)
    (hfmt : s.dest_format ≠ KDSFormat.other) :
    clserv_respond_hashjoin_model false s =
      RespondAct.reply StromError_OutOfSharedMemory := by
  unfold clserv_respond_hashjoin_model
  rw [if_pos hov]
  cases hf : s.dest_format with
  | other => exact absurd hf hfmt
  | tupslot => rfl
  | row_flat => rfl

theorem session_advance_overflow (s : GHJSession) (mc : Nat)
    (hov : s.kresults.nrooms < mc)
    (hfmt : s.dest_format ≠ KDSFormat.other) :
    session_advance true mc s =
      RespondAct.reenqueue
        { s with
          kresults :=
            { s.kresults with nrooms := mc, nitems := 0,
                              errcode := StromError_Success }
          dest_nitems := 0
          msg_errcode := StromError_DataStoreNoSpace } := by
  unfold session_advance device_run_model
  rw [if_pos hov]
  exact clserv_respond_noSpace _ rfl hfmt

theorem session_advance_overflow_allocFail (s : GHJSession) (mc : Nat)
    (hov : s.kresults.nrooms < mc)
    (hfmt : s.dest_format ≠ KDSFormat.other) :
    session_advance false mc s =
      RespondAct.reply StromError_OutOfSharedMemory := by
  unfold session_advance device_run_model
  rw [if_pos hov]
  exact clserv_respond_noSpace_allocFail _ rfl hfmt

theorem session_advance_fits (s : GHJSession) (mc : Nat)
    (hfit : ¬ s.kresults.nrooms < mc) :
    session_advance true mc s = RespondAct.reply StromError_Success := by
  unfold session_advance device_run_model clserv_respond_hashjoin_model
  rw [if_neg hfit]
  simp [StromError_Success, StromError_DataStoreNoSpace]

theorem preload_rows_overflow_not_done (thr : Nat → Nat → Bool)
    (rows : List InnerRow) :
    ∀ allocs mht kh,
      (preload_rows thr rows allocs mht kh).outer_overflow.isSome = true →
      (preload_rows thr rows allocs mht kh).outer_done = false := by
  induction rows with
  | nil =>
      intro allocs mht kh h
      simp [preload_rows] at h
  | cons r rest ih =>
      intro allocs mht kh h
      unfold preload_rows at h ⊢
      rcases hg : grow_until thr
          (mht.usage + kh.consumed +
            LONGALIGN (kern_hashentry_htup_offset + r.t_len)) allocs mht with
        ⟨mht2, allocs2, ok⟩
      rw [hg] at h
      cases ok
      · rfl
      · exact ih allocs2 mht2 _ h

theorem grow_until_of_never (thr : Nat → Nat → Bool)
    (hthr : ∀ a b, thr a b = false) (required : Nat)
    (allocs : List (Option Nat)) (mht : MHTablesB) :
    grow_until thr required allocs mht = (mht, allocs, true) := by
  unfold grow_until
  rw [hthr]
  simp

theorem pscan_update_first_forall₂ (v m : Nat) :
    ∀ (l l2 : List PscanEntry), pscan_update_first v m l = some l2 →
      List.Forall₂ (PscanR m) l l2 := by
  intro l
  induction l with
  | nil =>
      intro l2 h
      simp [pscan_update_first] at h
  | cons e rest ih =>
      intro l2 h
      unfold pscan_update_first at h
      by_cases he : e.var = v
      · rw [if_pos he] at h
        simp only [Option.some.injEq] at h
        subst h
        exact List.Forall₂.cons ⟨rfl, rfl, Or.inr rfl⟩
          (List.forall₂_same.mpr (fun x _ => ⟨rfl, rfl, Or.inl rfl⟩))
      · rw [if_neg he] at h
        cases hrec : pscan_update_first v m rest with
        | none =>
            rw [hrec] at h
            simp at h
        | some rest2 =>
            rw [hrec] at h
            simp only [Option.map_some', Option.some.injEq] at h
            subst h
            exact List.Forall₂.cons ⟨rfl, rfl, Or.inl rfl⟩ (ih rest2 hrec)

theorem forall₂_resnum_map {m : Nat} :
    ∀ {l l2 : List PscanEntry}, List.Forall₂ (PscanR m) l l2 →
      l2.map PscanEntry.resnum = l.map PscanEntry.resnum := by
  intro l l2 h
  induction h with
  | nil => rfl
  | cons hab htail ih => simp [ih, hab.1]

theorem forall₂_append_split {R : PscanEntry → PscanEntry → Prop} :
    ∀ (l₁ l₂ l : List PscanEntry), List.Forall₂ R (l₁ ++ l₂) l →
      ∃ m₁ m₂, l = m₁ ++ m₂ ∧ List.Forall₂ R l₁ m₁ ∧
        List.Forall₂ R l₂ m₂ := by
  intro l₁
  induction l₁ with
  | nil =>
      intro l₂ l h
      exact ⟨[], l, rfl, List.Forall₂.nil, h⟩
  | cons a rest ih =>
      intro l₂ l h
      cases h with
      | cons hab htail =>
          obtain ⟨m₁, m₂, rfl, h1, h2⟩ := ih l₂ _ htail
          exact ⟨_ :: m₁, m₂, rfl, List.Forall₂.cons hab h1, h2⟩

theorem forall₂_refs_class {m : Nat} (C : Nat → Prop)
    (hC : ∀ r, C r → C (r ||| m)) :
    ∀ {l l2 : List PscanEntry}, List.Forall₂ (PscanR m) l l2 →
      (∀ e ∈ l, C e.refs) → (∀ e ∈ l2, C e.refs) := by
  intro l l2 h
  induction h with
  | nil =>
      intro _ e he
      cases he
  | cons hab htail ih =>
      intro hl e he
      rcases List.mem_cons.mp he with rfl | hm
      · rcases hab.2.2 with h2 | h2
        · rw [h2]
          exact hl _ (List.mem_cons_self _ _)
        · rw [h2]
          exact hC _ (hl _ (List.mem_cons_self _ _))
      · exact ih (fun x hx => hl x (List.mem_cons_of_mem _ hx)) e hm

theorem pscan_numbered_append (l : List PscanEntry) (v m : Nat)
    (hnum : l.map PscanEntry.resnum = List.range' 1 l.length) :
    (l ++ [({ var := v, refs := m, resnum := l.length + 1 } :
        PscanEntry)]).map PscanEntry.resnum =
      List.range' 1
        (l ++ [({ var := v, refs := m, resnum := l.length + 1 } :
          PscanEntry)]).length := by
  rw [List.map_append, hnum, List.length_append]
  simp only [List.map_cons, List.map_nil, List.length_cons, List.length_nil]
  rw [List.range'_concat]
  congr 1
  simp [Nat.add_comm]

theorem phase1_step (v : Nat) (l : List PscanEntry) (h : Phase1Inv l) :
    Phase1Inv (pscan_walk_var 1 l v) := by
  unfold pscan_walk_var
  cases hu : pscan_update_first v 1 l with
  | some l2 =>
      have hf := pscan_update_first_forall₂ v 1 l l2 hu
      constructor
      · exact forall₂_refs_class (fun r => r = 1)
          (by intro r hr; subst hr; decide) hf h.1
      · rw [forall₂_resnum_map hf, ← hf.length_eq]
        exact h.2
  | none =>
      constructor
      · intro e he
        rcases List.mem_append.mp he with hm | hm
        · exact h.1 e hm
        · simp only [List.mem_singleton] at hm
          subst hm
          rfl
      · exact pscan_numbered_append l v 1 h.2

theorem phase1_fold (vs : List Nat) :
    ∀ l, Phase1Inv l → Phase1Inv (build_pscan_varlist_phase 1 l vs) := by
  induction vs with
  | nil => intro l h; exact h
  | cons v rest ih =>
      intro l h
      exact ih (pscan_walk_var 1 l v) (phase1_step v l h)

theorem phase2_step (v : Nat) (l : List PscanEntry) (h : Phase2Inv l) :
    Phase2Inv (pscan_walk_var 2 l v) := by
  obtain ⟨l₁, l₂, rfl, h1, h2, hnum⟩ := h
  unfold pscan_walk_var
  cases hu : pscan_update_first v 2 (l₁ ++ l₂) with
  | some l2 =>
      have hf := pscan_update_first_forall₂ v 2 _ l2 hu
      obtain ⟨m₁, m₂, rfl, hf1, hf2⟩ := forall₂_append_split l₁ l₂ l2 hf
      refine ⟨m₁, m₂, rfl, ?_, ?_, ?_⟩
      · refine forall₂_refs_class (fun r => r = 1 ∨ r = 3) ?_ hf1 h1
        rintro r (rfl | rfl) <;> decide
      · refine forall₂_refs_class (fun r => r = 2) ?_ hf2 h2
        rintro r rfl
        decide
      · rw [forall₂_resnum_map hf, ← hf.length_eq]
        exact hnum
  | none =>
      refine ⟨l₁,
        l₂ ++ [PscanEntry.mk v 2 ((l₁ ++ l₂).length + 1)],
        by rw [List.append_assoc], h1, ?_, ?_⟩
      · intro e he
        rcases List.mem_append.mp he with hm | hm
        · exact h2 e hm
        · simp only [List.mem_singleton] at hm
          subst hm
          rfl
      · exact pscan_numbered_append (l₁ ++ l₂) v 2 hnum

theorem phase2_fold (vs : List Nat) :
    ∀ l, Phase2Inv l → Phase2Inv (build_pscan_varlist_phase 2 l vs) := by
  induction vs with
  | nil => intro l h; exact h
  | cons v rest ih =>
      intro l h
      exact ih (pscan_walk_var 2 l v) (phase2_step v l h)

/-! ## Claim theorems -/

/-- C1 (evidence of the code bug): `gpuhashjoin_rescan` bases the release of
the multihash-tables buffer on `mhtables->is_divided || inner_ps->chgParam ==
NULL`.  At the input the claim calls the reuse case — buffer attached, not
divided, inner `chgParam` NULL (no parameter dependency) — the code RELEASES
the buffer, contradicting the claim (and the comment in the source, which says
the table may be reused exactly when there is no parameter change); dually,
when the inner parameters DID change (`chgParam` non-NULL) and the buffer is
undivided, the code keeps the stale buffer although the claim requires a
release and rebuild. -/
theorem C1_rescan_release_inverted :
    (gpuhashjoin_rescan_model true false true true).mhtables_released = true ∧
    (gpuhashjoin_rescan_model true false false true).mhtables_released
      = false := by
  decide

/-- C6: inserting an inner row during hash-table preload appends the entry at
the current consumption offset (`consumed`), links it at the head of
`bucket[hash % nslots]` — the entry's `next` receives the previous slot head
and the slot receives the new entry's table-relative offset, a plain `Nat`
offset, never a pointer — and the resulting bucket chain walks the new entry
first (last-inserted-first order). -/
theorem C6_khash_insert_head_link (s : KHashBuild) (h t : Nat)
    (wf : KHashWF s) (hlen : s.hash_slots.length = s.nslots)
    (hpos : 0 < s.nslots) :
    (khash_insert s h t).entries =
      s.entries ++ [(s.consumed,
        { hash := h, next := s.hash_slots.getD (h % s.nslots) 0,
          rowid := s.ntuples, t_len := t })] ∧
    (khash_insert s h t).hash_slots.getD (h % s.nslots) 0 = s.consumed ∧
    bucketChain (khash_insert s h t) (h % s.nslots) =
      s.consumed :: bucketChain s (h % s.nslots) := by
  refine ⟨rfl, ?_, bucketChain_insert s h t wf hlen hpos⟩
  unfold khash_insert
  simp only []
  exact getD_set_self _ _ _ (by rw [hlen]; exact Nat.mod_lt _ hpos)

theorem C6_khash_insert_head_link_witness :
    bucketChain (khash_insert ⟨4, [0, 0, 0, 0], [], 40, 0⟩ 6 20) (6 % 4) =
      40 :: bucketChain ⟨4, [0, 0, 0, 0], [], 40, 0⟩ (6 % 4) :=
  (C6_khash_insert_head_link ⟨4, [0, 0, 0, 0], [], 40, 0⟩ 6 20
    ⟨by decide,
     by intro p hp; simp at hp,
     by intro p hp; simp at hp,
     by
       intro v hv
       simp only [List.mem_cons, List.not_mem_nil, or_false] at hv
       rcases hv with h | h | h | h <;> subst h <;> decide⟩
    rfl (by decide)).2.2

/-- C7: the 32-bit row hash of `multihash_preload_khashtable` equals a CRC32
accumulation — `INIT_CRC32`, then `COMP_CRC32` over the concatenated byte
contributions of the key fields in order (a fixed-length by-value key feeds
its first `keylen` value bytes, a fixed-length by-reference key `keylen`
bytes at the datum pointer, a variable-length key its payload bytes only,
header excluded), then `FIN_CRC32` — and the result fits in 32 bits. -/
theorem C7_rowHash_is_crc_over_key_bytes (keys : List KeyVal) :
    rowHash keys =
      FIN_CRC32 (COMP_CRC32 INIT_CRC32 (keysContribBytes keys)) ∧
    rowHash keys < 2 ^ 32 := by
  constructor
  · unfold rowHash
    rw [foldl_hashKeyStep_eq]
  · exact rowHash_lt keys

/-- C2 (counterexample): at a concrete session completed with
`StromError_DataStoreNoSpace`, the responder re-enqueues the message and the
next `clserv_process_gpuhashjoin` invocation submits the join-matching kernel
launch again — refuting the claim that only the projection/materialization
and result-transfer steps are resubmitted and the join kernel is not
re-run. -/
theorem C2_counterexample_join_kernel_rerun :
    DevCmd.launchKernMain ∈
      retry_cmds true false
        ⟨⟨2, 100, 120, 100⟩, KDSFormat.tupslot, 500, 100, false⟩ := by
  decide

/-- C2 (amended): when a completed session reports
`StromError_DataStoreNoSpace` — for either real destination format, tuple
slot or flat row — and the reallocation succeeds, the driver resizes the
result buffer to exactly the reported row count (`kresults->nrooms :=
nitems`, counters and error reset — no further estimation) and re-enqueues
the message, so the ENTIRE pipeline is resubmitted: the join-matching kernel
launch and the projection launch are both among the retried commands. -/
theorem C2_overflow_retry_resubmits_full_pipeline (s : GHJSession)
    (hov : s.msg_errcode = StromError_DataStoreNoSpace)
    (hfmt : s.dest_format ≠ KDSFormat.other) :
    clserv_respond_hashjoin_model true s =
      RespondAct.reenqueue
        { s with
          kresults :=
            { s.kresults with nrooms := s.dest_nitems, nitems := 0,
                              errcode := StromError_Success }
          dest_nitems := 0 } ∧
    (∀ hr : Bool, DevCmd.launchKernMain ∈ retry_cmds true hr s ∧
      DevCmd.launchKernProj ∈ retry_cmds true hr s) := by
  have hresp := clserv_respond_noSpace s hov hfmt
  refine ⟨hresp, ?_⟩
  intro hr
  unfold retry_cmds
  rw [hresp]
  cases hr <;> cases hrm : s.has_rowmap <;>
    simp [clserv_process_cmds, hrm]

theorem C2_overflow_retry_resubmits_full_pipeline_witness :
    clserv_respond_hashjoin_model true
        ⟨⟨2, 100, 120, 100⟩, KDSFormat.tupslot, 500, 100, false⟩ =
      RespondAct.reenqueue
        ⟨⟨2, 500, 0, 0⟩, KDSFormat.tupslot, 0, 100, false⟩ ∧
    DevCmd.launchKernMain ∈
      retry_cmds true true
        ⟨⟨2, 100, 120, 100⟩, KDSFormat.tupslot, 500, 100, false⟩ ∧
    clserv_respond_hashjoin_model true
        ⟨⟨2, 100, 120, 100⟩, KDSFormat.row_flat, 500, 100, false⟩ =
      RespondAct.reenqueue
        ⟨⟨2, 500, 0, 0⟩, KDSFormat.row_flat, 0, 100, false⟩ ∧
    DevCmd.launchKernMain ∈
      retry_cmds true false
        ⟨⟨2, 100, 120, 100⟩, KDSFormat.row_flat, 500, 100, false⟩ := by
  have h1 := C2_overflow_retry_resubmits_full_pipeline
    ⟨⟨2, 100, 120, 100⟩, KDSFormat.tupslot, 500, 100, false⟩ rfl
    (by decide)
  have h2 := C2_overflow_retry_resubmits_full_pipeline
    ⟨⟨2, 100, 120, 100⟩, KDSFormat.row_flat, 500, 100, false⟩ rfl
    (by decide)
  exact ⟨h1.1, (h1.2 true).1, h2.1, (h2.2 false).1⟩

/-- C3: a session whose first run produces more match rows than the result
buffer has rooms (any real destination format, tuple slot or flat row) is
re-enqueued with the result buffer's room count set to exactly the true
match count, retried exactly once, and then succeeds (fuel 2 suffices, and
any surplus fuel gives the same answer, so the message is never re-enqueued
indefinitely); if the retry reallocation itself fails, the session fails
fatally with `StromError_OutOfSharedMemory` and is not re-enqueued at
all. -/
theorem C3_overflow_retry_converges (s : GHJSession) (mc : Nat)
    (hov : s.kresults.nrooms < mc)
    (hfmt : s.dest_format ≠ KDSFormat.other) :
    (∃ s2, session_advance true mc s = RespondAct.reenqueue s2 ∧
      s2.kresults.nrooms = mc) ∧
    (∀ fuel, session_drive true mc (fuel + 2) s =
      some (1, StromError_Success)) ∧
    session_drive false mc 2 s = some (0, StromError_OutOfSharedMemory) := by
  refine ⟨⟨_, session_advance_overflow s mc hov hfmt, rfl⟩, ?_, ?_⟩
  · intro fuel
    have h1 := session_advance_overflow s mc hov hfmt
    have h2 : session_advance true mc
        { s with
          kresults :=
            { s.kresults with nrooms := mc, nitems := 0,
                              errcode := StromError_Success }
          dest_nitems := 0
          msg_errcode := StromError_DataStoreNoSpace } =
        RespondAct.reply StromError_Success :=
      session_advance_fits _ mc (by simp)
    show session_drive true mc (fuel + 1 + 1) s = some (1, StromError_Success)
    unfold session_drive
    rw [h1]
    cases fuel with
    | zero =>
        simp only [session_drive, h2]
        rfl
    | succ f =>
        show (session_drive true mc (f + 1 + 1) _).map _ = _
        unfold session_drive
        rw [h2]
        rfl
  · unfold session_drive
    rw [session_advance_overflow_allocFail s mc hov hfmt]

theorem C3_overflow_retry_converges_witness :
    (∃ s2, session_advance true 120
        ⟨⟨2, 100, 0, 0⟩, KDSFormat.row_flat, 0, 0, false⟩ =
      RespondAct.reenqueue s2 ∧ s2.kresults.nrooms = 120) ∧
    session_drive true 120 2
        ⟨⟨2, 100, 0, 0⟩, KDSFormat.row_flat, 0, 0, false⟩ =
      some (1, StromError_Success) ∧
    session_drive false 120 2
        ⟨⟨2, 100, 0, 0⟩, KDSFormat.row_flat, 0, 0, false⟩ =
      some (0, StromError_OutOfSharedMemory) := by
  have h := C3_overflow_retry_converges
    ⟨⟨2, 100, 0, 0⟩, KDSFormat.row_flat, 0, 0, false⟩ 120
    (by decide) (by decide)
  exact ⟨h.1, h.2.1 0, h.2.2⟩

/-- C8 (counterexample): with `pgstrom_max_async_chunks = 1`, two available
outer chunks and an empty response queue, the issue loop of
`pgstrom_fetch_gpuhashjoin` — whose guard is `num_running <=
pgstrom_max_async_chunks`, not a strict comparison — drives the in-flight
counter to 2, refuting the claim that `num_running` never exceeds the
configured limit. -/
theorem C8_counterexample_window_exceeded :
    ¬ ((fetch_issue_loop 1 2 [false, false] 0 0 0).peak ≤ 1) := by
  decide

/-- C8 (amended): the issue loop enqueues a new session only while the
in-flight count is at most `pgstrom_max_async_chunks` (the source guard is
`<=`), so the in-flight count never exceeds `pgstrom_max_async_chunks + 1`
(starting from an idle node); and the node blocks on the response queue
exactly when no completed session is already on hand while some are still
running. -/
theorem C8_admission_window (maxAsync chunks : Nat) (polls : List Bool)
    (nr peak ready : Nat) :
    (fetch_issue_loop maxAsync chunks polls nr peak ready).peak ≤
      Nat.max peak (Nat.max nr (maxAsync + 1)) ∧
    ((pgstrom_fetch_model maxAsync chunks polls nr peak ready).blocked
        = true ↔
      ((fetch_issue_loop maxAsync chunks polls nr peak ready).ready = 0 ∧
       (fetch_issue_loop maxAsync chunks polls nr peak ready).num_running
         ≠ 0)) := by
  constructor
  · induction chunks generalizing polls nr peak ready with
    | zero =>
        unfold fetch_issue_loop
        by_cases hg : maxAsync < nr <;>
          simp [hg, Nat.le_max_left]
    | succ c ih =>
        unfold fetch_issue_loop
        by_cases hg : maxAsync < nr
        · simp [hg, Nat.le_max_left]
        · have hnr : nr + 1 ≤ maxAsync + 1 := by omega
          have hbound : Nat.max peak (nr + 1) ≤
              Nat.max peak (Nat.max nr (maxAsync + 1)) :=
            Nat.max_le.mpr ⟨Nat.le_max_left _ _,
              le_trans hnr (le_trans (Nat.le_max_right nr _)
                (Nat.le_max_right peak _))⟩
          simp only [hg, if_false]
          match polls with
          | true :: rest => simpa using hbound
          | false :: rest =>
              refine le_trans (ih rest (nr + 1) (Nat.max peak (nr + 1))
                ready) ?_
              refine Nat.max_le.mpr ⟨hbound, Nat.max_le.mpr ⟨?_, ?_⟩⟩
              · exact le_trans hnr (le_trans (Nat.le_max_right nr _)
                  (Nat.le_max_right peak _))
              · exact le_trans (Nat.le_max_right nr _)
                  (Nat.le_max_right peak _)
          | [] =>
              refine le_trans (ih [] (nr + 1) (Nat.max peak (nr + 1))
                ready) ?_
              refine Nat.max_le.mpr ⟨hbound, Nat.max_le.mpr ⟨?_, ?_⟩⟩
              · exact le_trans hnr (le_trans (Nat.le_max_right nr _)
                  (Nat.le_max_right peak _))
              · exact le_trans (Nat.le_max_right nr _)
                  (Nat.le_max_right peak _)
  · unfold pgstrom_fetch_model
    by_cases h0 : (fetch_issue_loop maxAsync chunks polls nr peak
        ready).ready = 0
    · by_cases h1 : (fetch_issue_loop maxAsync chunks polls nr peak
          ready).num_running = 0
      · simp [h0, h1]
      · simp [h0, h1]
    · simp [h0]

theorem C8_admission_window_witness :
    (fetch_issue_loop 1 2 [false, false] 0 0 0).peak ≤
      Nat.max 0 (Nat.max 0 (1 + 1)) ∧
    ((pgstrom_fetch_model 1 2 [false, false] 0 0 0).blocked = true ↔
      ((fetch_issue_loop 1 2 [false, false] 0 0 0).ready = 0 ∧
       (fetch_issue_loop 1 2 [false, false] 0 0 0).num_running ≠ 0)) :=
  C8_admission_window 1 2 [false, false] 0 0 0

/-- C9: when N sessions sharing one multihash-tables buffer acquire device
residency under the spinlock before any of them completes, only the first
one (which finds `n_kernel == 0`) allocates the device buffer and enqueues
the DMA write, publishing `m_hash` and `ev_hash`; every later session
retains and observes exactly that same published pair instead of performing
a second transfer; each session records exactly one observation, and the
reference count equals N. -/
theorem C9_hash_transfer_exactly_once (f0 : Nat × Nat)
    (fs : List (Nat × Nat)) :
    (acquire_seq (f0 :: fs) ⟨0, none, none⟩).2 =
      { mem := f0.1, ev := f0.2, loader := true } ::
        fs.map (fun _ => { mem := f0.1, ev := f0.2, loader := false }) ∧
    (List.filter (fun o => o.loader)
      (acquire_seq (f0 :: fs) ⟨0, none, none⟩).2).length = 1 ∧
    (acquire_seq (f0 :: fs) ⟨0, none, none⟩).2.length = fs.length + 1 ∧
    (acquire_seq (f0 :: fs) ⟨0, none, none⟩).1.n_kernel = fs.length + 1 := by
  have h0 : acquire_hash f0.1 f0.2 ⟨0, none, none⟩ =
      (⟨1, some f0.1, some f0.2⟩,
       { mem := f0.1, ev := f0.2, loader := true }) := rfl
  have hstep : acquire_seq (f0 :: fs) ⟨0, none, none⟩ =
      (⟨1 + fs.length, some f0.1, some f0.2⟩,
       ({ mem := f0.1, ev := f0.2, loader := true } : HashAcqObs) ::
         fs.map (fun _ => ⟨f0.1, f0.2, false⟩)) := by
    simp only [acquire_seq]
    rw [h0]
    rw [acquire_seq_loaded fs f0.1 f0.2 1 (by omega)]
  rw [hstep]
  refine ⟨rfl, ?_, by simp, by simp; omega⟩
  simp only [List.filter_cons]
  rw [filter_loader_map_const]
  rfl

/-- C4: when buffer expansion fails during hash-table preload (the allocator
returns NULL mid-scan), the builder returns normally instead of raising an
error: the unconsumed row is stashed as `outer_overflow`, the shipped buffer
carries `is_divided = true`, a copy of the just-built single-depth table is
kept as `curr_chunk`, the outer scan is not marked done; the next MultiExec
pull (outer scan unfinished) preloads again starting from the stashed row;
and `gpuhashjoin_load_next_chunk` rewinds the outer relation with
`ExecReScan` when it attaches the next inner chunk after the outer scan was
exhausted. -/
theorem C4_expansion_failure_ships_divided_chunk
    (thr : Nat → Nat → Bool) (nslots consumed0 headerReq : Nat)
    (prev_chunk : Option KHashBuild) (rows : List InnerRow)
    (allocs allocs1 : List (Option Nat)) (mht mht1 : MHTablesB) (r : InnerRow)
    (hhdr : grow_until thr (mht.usage + headerReq) allocs mht =
      (mht1, allocs1, true))
    (hfail : (preload_rows thr rows allocs1 mht1
      (khash_init nslots consumed0)).outer_overflow = some r) :
    ∃ out,
      multihash_preload_khashtable_fwd thr nslots consumed0 headerReq
          prev_chunk rows allocs mht = Except.ok out ∧
      out.outer_overflow = some r ∧
      out.mht.is_divided = true ∧
      out.curr_chunk = some (preload_rows thr rows allocs1 mht1
        (khash_init nslots consumed0)).kh ∧
      out.outer_done = false ∧
      (∀ rows2 allocs2 mht2,
        multihash_exec_multi_leaf thr nslots consumed0 headerReq false
            (some r) out.curr_chunk rows2 allocs2 (some mht2) =
          (multihash_preload_khashtable_fwd thr nslots consumed0 headerReq
            out.curr_chunk (r :: rows2) allocs2 mht2).map some) ∧
      load_next_chunk_outer_rescan true true true = some true := by
  have hnd : (preload_rows thr rows allocs1 mht1
      (khash_init nslots consumed0)).outer_done = false :=
    preload_rows_overflow_not_done thr rows allocs1 mht1 _
      (by rw [hfail]; rfl)
  refine ⟨preload_epilogue prev_chunk
      (preload_rows thr rows allocs1 mht1 (khash_init nslots consumed0)),
    ?_, ?_, ?_, ?_, ?_, ?_, ?_⟩
  · unfold multihash_preload_khashtable_fwd
    rw [hhdr]
  · exact hfail
  · simp [preload_epilogue, hnd]
  · rfl
  · exact hnd
  · intro rows2 allocs2 mht2
    rfl
  · rfl

theorem C4_expansion_failure_ships_divided_chunk_witness :
    ∃ out,
      multihash_preload_khashtable_fwd (fun req len => decide (len < req))
          4 48 40 none [⟨[], 60⟩] [none] ⟨100, 0, 0, false⟩ =
        Except.ok out ∧
      out.outer_overflow = some ⟨[], 60⟩ ∧
      out.mht.is_divided = true ∧
      out.curr_chunk = some (preload_rows (fun req len => decide (len < req))
        [⟨[], 60⟩] [none] ⟨100, 0, 0, false⟩ (khash_init 4 48)).kh ∧
      out.outer_done = false ∧
      (∀ rows2 allocs2 mht2,
        multihash_exec_multi_leaf (fun req len => decide (len < req))
            4 48 40 false (some ⟨[], 60⟩) out.curr_chunk rows2 allocs2
            (some mht2) =
          (multihash_preload_khashtable_fwd (fun req len => decide (len < req))
            4 48 40 out.curr_chunk (⟨[], 60⟩ :: rows2) allocs2 mht2).map
              some) ∧
      load_next_chunk_outer_rescan true true true = some true :=
  C4_expansion_failure_ships_divided_chunk
    (fun req len => decide (len < req)) 4 48 40 none [⟨[], 60⟩]
    [none] [none] ⟨100, 0, 0, false⟩ ⟨100, 0, 0, false⟩ ⟨[], 60⟩
    (by decide) (by decide)

/-- C10: a hash-key expression evaluating to NULL is skipped by the CRC
accumulation — the row hash with the null field present equals the hash with
that field absent — and the row is still inserted: with growth never needed,
the preload loop inserts every pulled row (the tuple count grows by exactly
the number of rows and nothing overflows), and consuming one row steps the
loop by inserting it with its computed hash regardless of null key fields. -/
theorem C10_null_key_skipped_row_still_inserted
    (xs ys : List KeyVal) (k : KeyVal) (hk : k.isnull = true) :
    rowHash (xs ++ k :: ys) = rowHash (xs ++ ys) ∧
    (∀ (thr : Nat → Nat → Bool), (∀ a b, thr a b = false) →
      ∀ (rows : List InnerRow) allocs mht kh,
        (preload_rows thr rows allocs mht kh).kh.ntuples =
          kh.ntuples + rows.length ∧
        (preload_rows thr rows allocs mht kh).outer_overflow = none) ∧
    (∀ (thr : Nat → Nat → Bool), (∀ a b, thr a b = false) →
      ∀ (r : InnerRow) rest allocs mht kh,
        preload_rows thr (r :: rest) allocs mht kh =
          preload_rows thr rest allocs mht
            (khash_insert kh (rowHash r.keys) r.t_len)) := by
  have hstep : ∀ c, hashKeyStep c k = c := by
    intro c
    simp [hashKeyStep, hk]
  refine ⟨?_, ?_, ?_⟩
  · unfold rowHash
    rw [List.foldl_append, List.foldl_append, List.foldl_cons, hstep]
  · intro thr hthr rows
    induction rows with
    | nil =>
        intro allocs mht kh
        exact ⟨rfl, rfl⟩
    | cons r rest ih =>
        intro allocs mht kh
        unfold preload_rows
        rw [grow_until_of_never thr hthr]
        simp only []
        have h2 := ih allocs mht (khash_insert kh (rowHash r.keys) r.t_len)
        refine ⟨?_, h2.2⟩
        rw [h2.1]
        simp only [khash_insert, List.length_cons]
        omega
  · intro thr hthr r rest allocs mht kh
    simp only [preload_rows]
    rw [grow_until_of_never thr hthr]

theorem C10_null_key_skipped_row_still_inserted_witness :
    rowHash ([] ++ ⟨true, 4, true, [9, 9, 9, 9, 0, 0, 0, 0], [], 0⟩ ::
        [⟨false, 4, true, [1, 2, 3, 4, 0, 0, 0, 0], [], 0⟩]) =
      rowHash ([] ++ [⟨false, 4, true, [1, 2, 3, 4, 0, 0, 0, 0], [], 0⟩]) ∧
    (preload_rows (fun _ _ => false)
        [⟨[⟨true, 4, true, [9, 9, 9, 9, 0, 0, 0, 0], [], 0⟩], 20⟩] []
        ⟨1000, 0, 0, false⟩ (khash_init 4 48)).kh.ntuples =
      (khash_init 4 48).ntuples +
        [(⟨[⟨true, 4, true, [9, 9, 9, 9, 0, 0, 0, 0], [], 0⟩], 20⟩ :
          InnerRow)].length := by
  have h := C10_null_key_skipped_row_still_inserted []
    [⟨false, 4, true, [1, 2, 3, 4, 0, 0, 0, 0], [], 0⟩]
    ⟨true, 4, true, [9, 9, 9, 9, 0, 0, 0, 0], [], 0⟩ rfl
  exact ⟨h.1, (h.2.1 (fun _ _ => false) (fun _ _ => rfl)
    [⟨[⟨true, 4, true, [9, 9, 9, 9, 0, 0, 0, 0], [], 0⟩], 20⟩] []
    ⟨1000, 0, 0, false⟩ (khash_init 4 48)).1⟩

/-- C5: the pseudo-relation numbering built by `build_pseudo_scan_vartrans`
is a stable partition: every output column number of a host-referenced entry
(`ref_host`, bit 0x0001 of the reference mask) is strictly smaller than every
output column number of an entry referenced only by device code, and the
assigned numbers are exactly `1, 2, ..., n` in list order, so the
host-visible projection is a dense prefix. -/
theorem C5_host_refs_partition_dense (hostVars deviceVars : List Nat) :
    (∀ e1 ∈ build_pseudo_scan_varlist hostVars deviceVars,
     ∀ e2 ∈ build_pseudo_scan_varlist hostVars deviceVars,
       vtrans_ref_host e1 = true → vtrans_ref_host e2 = false →
         e1.resnum < e2.resnum) ∧
    (build_pseudo_scan_varlist hostVars deviceVars).map PscanEntry.resnum =
      List.range' 1 (build_pseudo_scan_varlist hostVars deviceVars).length
    := by
  have h1 : Phase1Inv (build_pscan_varlist_phase 1 [] hostVars) := by
    apply phase1_fold hostVars
    exact And.intro (fun e he => absurd he (List.not_mem_nil e)) rfl
  have h2 : Phase2Inv (build_pseudo_scan_varlist hostVars deviceVars) := by
    apply phase2_fold deviceVars
    exact ⟨build_pscan_varlist_phase 1 [] hostVars, [], by simp,
      fun e he => Or.inl (h1.1 e he),
      fun e he => absurd he (List.not_mem_nil e), h1.2⟩
  obtain ⟨l₁, l₂, heq, hl1, hl2, hnum⟩ := h2
  constructor
  · intro e1 he1 e2 he2 hh1 hh2
    have he1m : e1 ∈ l₁ ++ l₂ := heq ▸ he1
    have he2m : e2 ∈ l₁ ++ l₂ := heq ▸ he2
    have he1p : e1 ∈ l₁ := by
      rcases List.mem_append.mp he1m with hm | hm
      · exact hm
      · exfalso
        have h2r := hl2 e1 hm
        rw [vtrans_ref_host, h2r] at hh1
        simp at hh1
    have he2p : e2 ∈ l₂ := by
      rcases List.mem_append.mp he2m with hm | hm
      · exfalso
        rcases hl1 e2 hm with h1r | h1r
        · rw [vtrans_ref_host, h1r] at hh2
          simp at hh2
        · rw [vtrans_ref_host, h1r] at hh2
          simp at hh2
      · exact hm
    have hmaps : l₁.map PscanEntry.resnum ++ l₂.map PscanEntry.resnum =
        List.range' 1 l₁.length ++
          List.range' (1 + l₁.length) l₂.length := by
      have hnum2 := hnum
      rw [heq, List.length_append] at hnum2
      rw [← List.map_append, List.range'_append_1]
      simpa [Nat.add_comm] using hnum2
    have hsplit := List.append_inj hmaps (by simp)
    have hr1 : e1.resnum ∈ List.range' 1 l₁.length := by
      rw [← hsplit.1]
      exact List.mem_map_of_mem PscanEntry.resnum he1p
    have hr2 : e2.resnum ∈ List.range' (1 + l₁.length) l₂.length := by
      rw [← hsplit.2]
      exact List.mem_map_of_mem PscanEntry.resnum he2p
    have hb1 := List.mem_range'_1.mp hr1
    have hb2 := List.mem_range'_1.mp hr2
    omega
  · exact hnum

theorem C5_host_refs_partition_dense_witness :
    (PscanEntry.mk 10 1 1).resnum < (PscanEntry.mk 20 2 2).resnum :=
  (C5_host_refs_partition_dense [10] [20]).1
    (PscanEntry.mk 10 1 1) (by decide)
    (PscanEntry.mk 20 2 2) (by decide)
    (by decide) (by decide)

end PgStrom
